/- Verification development for the document windowing and span-alignment
   pipeline of run_squad_zh.py: sliding-window document spans, max-context
   resolution, answer-span improvement, feature construction, the SQuAD
   example loader and per-example prediction aggregation. Python integers are
   modelled as Int, float scores as exact rationals, dictionaries as functions
   into Option, and the while loops as fuel-indexed structural recursion. -/
import Mathlib

/-- A document span: a contiguous slice of the document subword stream as
    built by the sliding-window loop in convert_examples_to_features. -/
structure DocSpan where
  start : ℤ
  length : ℤ
deriving DecidableEq

/-- Last document-stream position covered by a span, i.e. the local variable
    end = doc_span.start + doc_span.length - 1 of the source. -/
def span_end (sp : DocSpan) : ℤ := sp.start + sp.length - 1

/-- Python-style space join of a token list. -/
def join_words : List String → String
  | [] => ""
  | [t] => t
  | t :: ts => t ++ " " ++ join_words ts

/-- Fuel-indexed body of the while loop over start_offset (source lines
    370-378): length = min(remaining, max_tokens_for_doc), break once the span
    reaches the end of the stream, otherwise advance start_offset by
    min(length, doc_stride). Returns none when the fuel runs out with the loop
    still running. -/
def doc_spans_go (n W stride : ℤ) : ℕ → ℤ → Option (List DocSpan)
  | 0, s => if s < n then none else some []
  | fuel + 1, s =>
    if s < n then
      let len := min (n - s) W
      if s + len = n then some [⟨s, len⟩]
      else
        match doc_spans_go n W stride fuel (s + min len stride) with
        | none => none
        | some l => some (⟨s, len⟩ :: l)
    else some []

/-- The doc_spans list for a document subword stream of length n, document
    token budget W = max_tokens_for_doc and doc_stride = stride. The fuel
    n.toNat + 1 suffices whenever the source loop terminates; if the source
    loop diverges the fuel runs out and the empty list is returned. -/
def doc_spans (n W stride : ℤ) : List DocSpan :=
  (doc_spans_go n W stride (n.toNat + 1) 0).getD []

/-- Number of stream positions shared by consecutive spans a and b. -/
def span_overlap (a b : DocSpan) : ℤ := max 0 (a.start + a.length - b.start)

/-- A span contains document position p exactly when neither skip guard of
    _check_is_max_context fires. -/
def Covers (sp : DocSpan) (p : ℤ) : Prop := sp.start ≤ p ∧ p ≤ span_end sp

instance (sp : DocSpan) (p : ℤ) : Decidable (Covers sp p) := by
  unfold Covers; infer_instance

/-- score = min(num_left_context, num_right_context) + 0.01 * doc_span.length,
    the float literal 0.01 modelled exactly as the rational 1/100. -/
def ctx_score (sp : DocSpan) (p : ℤ) : ℚ :=
  ((min (p - sp.start) (span_end sp - p) : ℤ) : ℚ) + (1 / 100 : ℚ) * (sp.length : ℚ)

/-- The (score, span_index) candidates that the loop of _check_is_max_context
    considers for a position, in iteration order, indices starting at idx. -/
def cands (p : ℤ) : List DocSpan → ℕ → List (ℚ × ℕ)
  | [], _ => []
  | sp :: rest, idx =>
    if p < sp.start then cands p rest (idx + 1)
    else if span_end sp < p then cands p rest (idx + 1)
    else (ctx_score sp p, idx) :: cands p rest (idx + 1)

/-- Accumulator update over the candidate list: keep the current best, replace
    it only on strictly larger score (the comparison score > best_score). -/
def pick : Option (ℚ × ℕ) → List (ℚ × ℕ) → Option (ℚ × ℕ)
  | acc, [] => acc
  | none, c :: cs => pick (some c) cs
  | some b, c :: cs => pick (if b.1 < c.1 then some c else some b) cs

/-- The accumulator loop of _check_is_max_context (source lines 544-557):
    best (score, span_index) over the spans containing the position, updated
    only on strictly larger score. -/
def best_loop (p : ℤ) : List DocSpan → ℕ → Option (ℚ × ℕ) → Option (ℚ × ℕ)
  | [], _, best => best
  | sp :: rest, idx, best =>
    if p < sp.start then best_loop p rest (idx + 1) best
    else if span_end sp < p then best_loop p rest (idx + 1) best
    else
      let score := ctx_score sp p
      match best with
      | none => best_loop p rest (idx + 1) (some (score, idx))
      | some b =>
        if b.1 < score then best_loop p rest (idx + 1) (some (score, idx))
        else best_loop p rest (idx + 1) (some b)

/-- best_span_index after the loop of _check_is_max_context. -/
def best_span_index (spans : List DocSpan) (p : ℤ) : Option ℕ :=
  (best_loop p spans 0 none).map (fun x => x.2)

/-- The function _check_is_max_context (source lines 525-559): the final comparison
    cur_span_index == best_span_index. -/
def check_is_max_context (spans : List DocSpan) (cur_span_index : ℕ) (position : ℤ) : Bool :=
  best_span_index spans position == some cur_span_index

/-- Indices of the spans of a list that contain a position. -/
def covering_idx (spans : List DocSpan) (p : ℤ) : List ℕ :=
  (List.range spans.length).filter (fun k => decide (Covers (spans.getD k ⟨0, 0⟩) p))

/-- The detokenized-text comparison of _improve_answer_span: the space join of
    doc_tokens from position ns to position ne equals the target text. -/
def span_matches (doc_tokens : List String) (ans : String) (ns ne : ℕ) : Bool :=
  join_words ((doc_tokens.drop ns).take (ne + 1 - ns)) == ans

/-- Inner loop of _improve_answer_span: scan new_end downward from the second
    argument to new_start = ns and return the first exact match. -/
def search_end (doc_tokens : List String) (ans : String) (ns : ℕ) : ℕ → Option ℕ
  | 0 =>
    if 0 < ns then none
    else if span_matches doc_tokens ans ns 0 then some 0 else none
  | ne + 1 =>
    if ne + 1 < ns then none
    else if span_matches doc_tokens ans ns (ne + 1) then some (ne + 1)
    else search_end doc_tokens ans ns ne

/-- Outer loop of _improve_answer_span: scan new_start upward, with fuel
    counting the remaining start values. -/
def search_start (doc_tokens : List String) (ans : String) (input_end : ℕ) : ℕ → ℕ → Option (ℕ × ℕ)
  | 0, _ => none
  | m + 1, ns =>
    if ns ≤ input_end then
      match search_end doc_tokens ans ns input_end with
      | some ne => some (ns, ne)
      | none => search_start doc_tokens ans input_end m (ns + 1)
    else none

/-- The function _improve_answer_span (source lines 488-522): tok_answer_text is the space
    join of the tokenized answer text; search new_start ascending and new_end
    descending for an exact detokenized match, otherwise return the input span
    unchanged. -/
def improve_answer_span (tokenize : String → List String) (doc_tokens : List String)
    (input_start input_end : ℕ) (orig_answer_text : String) : ℕ × ℕ :=
  let tok_answer_text := join_words (tokenize orig_answer_text)
  match search_start doc_tokens tok_answer_text input_end (input_end + 1 - input_start) input_start with
  | some r => r
  | none => (input_start, input_end)

/-- Recursive form of the subword re-tokenization loop, carrying the running
    original-word index i and the running length cnt of all_doc_tokens. -/
def build_tok_maps_go (tokenize : String → List String) : List String → ℕ → ℕ → List ℕ × List ℕ × List String
  | [], _, _ => ([], [], [])
  | t :: ts, i, cnt =>
    let subs := tokenize t
    let rest := build_tok_maps_go tokenize ts (i + 1) (cnt + subs.length)
    (subs.map (fun _ => i) ++ rest.1, cnt :: rest.2.1, subs ++ rest.2.2)

/-- The subword re-tokenization loop of convert_examples_to_features (source
    lines 335-343): returns (tok_to_orig_index, orig_to_tok_index,
    all_doc_tokens). -/
def build_tok_maps (tokenize : String → List String) (doc_tokens : List String) :
    List ℕ × List ℕ × List String :=
  build_tok_maps_go tokenize doc_tokens 0 0

/-- Projection of the word-level gold span to subword coordinates (source
    lines 345-358) including the _improve_answer_span refinement. List lookups
    are total with default 0; all uses in this file are in range. -/
def tok_positions (tokenize : String → List String) (doc_tokens : List String)
    (start_position end_position : ℕ) (orig_answer_text : String) : ℕ × ℕ :=
  let m := build_tok_maps tokenize doc_tokens
  let orig_to_tok_index := m.2.1
  let all_doc_tokens := m.2.2
  let tok_start_position := orig_to_tok_index.getD start_position 0
  let tok_end_position :=
    if end_position < doc_tokens.length - 1 then orig_to_tok_index.getD (end_position + 1) 0 - 1
    else all_doc_tokens.length - 1
  improve_answer_span tokenize all_doc_tokens tok_start_position tok_end_position orig_answer_text

/-- Per-window gold position assignment (source lines 421-443). The
    out-of-span test compares example_start and example_end, the word-level
    gold indices, against the span bounds, exactly as the source does; the
    in-span branch then offsets tok_start and tok_end, the subword-level
    indices, by len(query_tokens) + 2 minus the span start. -/
def span_positions (query_len : ℕ) (example_start example_end tok_start tok_end : ℤ)
    (sp : DocSpan) (is_impossible : Bool) : ℤ × ℤ :=
  if is_impossible then (0, 0)
  else
    let doc_start := sp.start
    let doc_end := span_end sp
    if example_start < doc_start ∨ example_end < doc_start ∨ example_start > doc_end ∨
        example_end > doc_end then (0, 0)
    else (tok_start - doc_start + ((query_len : ℤ) + 2), tok_end - doc_start + ((query_len : ℤ) + 2))

/-- Window assembly (source lines 380-419): token sequence
    CLS, query, SEP, document slice, SEP with its segment ids, ids under the
    abstract convert_tokens_to_ids map tid, mask of ones, all zero-padded to
    max_seq_length. Returns (tokens, input_ids, input_mask, segment_ids). -/
def build_feature (tid : String → ℤ) (query_tokens all_doc_tokens : List String)
    (max_seq_length : ℕ) (sp : DocSpan) : List String × List ℤ × List ℤ × List ℤ :=
  let slice := (all_doc_tokens.drop sp.start.toNat).take sp.length.toNat
  let tokens := "[CLS]" :: query_tokens ++ "[SEP]" :: slice ++ ["[SEP]"]
  let segment_ids := (0 : ℤ) :: query_tokens.map (fun _ => 0) ++ (0 : ℤ) :: slice.map (fun _ => 1) ++ [(1 : ℤ)]
  let input_ids := tokens.map tid
  let input_mask := input_ids.map (fun _ => (1 : ℤ))
  let pad := fun l : List ℤ => l ++ List.replicate (max_seq_length - l.length) 0
  (tokens, pad input_ids, pad input_mask, pad segment_ids)

/-- is_whitespace of read_squad_examples (source lines 219-223). -/
def is_whitespace_char (c : Char) : Bool :=
  c == ' ' || c == '\t' || c == '\r' || c == '\n' || c.toNat == 0x202F

/-- Recursive form of the character loop of the whitespace segmentation,
    accumulating doc_tokens (reversed) and char_to_word_offset (reversed). -/
def split_doc_go : List Char → Bool → List String → List ℤ → List String × List ℤ
  | [], _, toks, offs => (toks.reverse, offs.reverse)
  | c :: cs, prev_ws, toks, offs =>
    if is_whitespace_char c then
      split_doc_go cs true toks (((toks.length : ℤ) - 1) :: offs)
    else
      let toks2 :=
        if prev_ws then String.singleton c :: toks
        else
          match toks with
          | [] => [String.singleton c]
          | t :: ts => t.push c :: ts
      split_doc_go cs false toks2 (((toks2.length : ℤ) - 1) :: offs)

/-- Whitespace segmentation of one paragraph (source lines 235-248): returns
    (doc_tokens, char_to_word_offset). -/
def split_doc (paragraph_text : String) : List String × List ℤ :=
  split_doc_go paragraph_text.toList true [] []

/-- One gold answer record as consumed by read_squad_examples. This corpus
    variant stores answer_start and answer_end and the code reads both fields
    directly as word indices (source lines 276-286). -/
structure SquadAnswer where
  text : String
  answer_start : ℤ
  answer_end : ℤ
deriving DecidableEq

/-- Gold fields of one training question (source lines 269-286): an
    answerable question needs exactly one answer or a ValueError is raised;
    an unanswerable one gets (-1, -1, empty text). Returns
    (start_position, end_position, orig_answer_text). -/
def read_example_positions (is_impossible : Bool) (answers : List SquadAnswer) :
    Except String (ℤ × ℤ × String) :=
  if answers.length ≠ 1 ∧ ¬ is_impossible then
    Except.error "For training, each question should have exactly 1 answer."
  else if ¬ is_impossible then
    match answers with
    | a :: _ => Except.ok (a.answer_start, a.answer_end, a.text)
    | [] => Except.error "no answer"
  else Except.ok (-1, -1, "")

/-- Modelled from the spec: the conversion that claim C4 attributes to the
    loader, reading the gold start as the char_to_word_offset entry at the
    answer character offset. Formalised only to compare with the source; the
    source (lines 276-286) performs no such conversion. -/
def spec_word_start (paragraph_text : String) (answer_char_start : ℤ) : ℤ :=
  (split_doc paragraph_text).2.getD answer_char_start.toNat 0

/-- One raw model result for one feature (namedtuple RawResult). -/
structure RawResult where
  unique_id : ℕ
  start_logits : List ℚ
  end_logits : List ℚ
deriving DecidableEq

/-- The fields of InputFeatures that prediction aggregation reads. The two
    position dictionaries are modelled as functions into Option. -/
structure InputFeatures where
  unique_id : ℕ
  tokens : List String
  token_to_orig_map : ℕ → Option ℕ
  token_is_max_context : ℕ → Option Bool

instance : Inhabited InputFeatures :=
  ⟨⟨0, [], fun _ => none, fun _ => none⟩⟩

/-- namedtuple PrelimPrediction. -/
structure PrelimPrediction where
  feature_index : ℕ
  start_index : ℕ
  end_index : ℕ
  start_logit : ℚ
  end_logit : ℚ
deriving DecidableEq

/-- namedtuple NbestPrediction. -/
structure NbestPrediction where
  text : String
  start_logit : ℚ
  end_logit : ℚ
deriving DecidableEq

/-- Stable insert for descending order by key: an element is placed before
    every later element of equal key, as Python stable sorting does. -/
def insert_desc (key : α → ℚ) (x : α) : List α → List α
  | [] => [x]
  | y :: ys => if key y ≤ key x then x :: y :: ys else y :: insert_desc key x ys

/-- Python sorted(..., key, reverse=True): stable descending sort. -/
def sorted_desc (key : α → ℚ) : List α → List α
  | [] => []
  | x :: xs => insert_desc key x (sorted_desc key xs)

/-- The function _get_best_indexes (source lines 935-954): indices of the n_best_size
    largest logits, in descending score order. -/
def get_best_indexes (logits : List ℚ) (n_best_size : ℕ) : List ℕ :=
  ((sorted_desc (fun x => x.2) logits.enum).take n_best_size).map (fun x => x.1)

/-- The candidate filter of write_predictions (source lines 662-676): a
    (start, end) index pair survives iff none of the discard conditions fires. -/
def prelim_survives (feature : InputFeatures) (max_answer_length : ℕ) (s e : ℕ) : Bool :=
  decide (s < feature.tokens.length) && decide (e < feature.tokens.length) &&
  (feature.token_to_orig_map s).isSome && (feature.token_to_orig_map e).isSome &&
  (feature.token_is_max_context s).getD false && decide (s ≤ e) &&
  decide (e - s + 1 ≤ max_answer_length)

/-- Candidate generation for one feature (source lines 657-683): all pairs
    from the two top-n index lists that survive the filter, carrying their
    logits. -/
def prelim_predictions_for_feature (feature_index : ℕ) (feature : InputFeatures)
    (result : RawResult) (n_best_size max_answer_length : ℕ) : List PrelimPrediction :=
  let start_indexes := get_best_indexes result.start_logits n_best_size
  let end_indexes := get_best_indexes result.end_logits n_best_size
  start_indexes.flatMap fun s =>
    (end_indexes.filter fun e => prelim_survives feature max_answer_length s e).map fun e =>
      ⟨feature_index, s, e, result.start_logits.getD s 0, result.end_logits.getD e 0⟩

/-- unique_id_to_result lookup. -/
def result_for (results : List RawResult) (uid : ℕ) : RawResult :=
  (results.find? (fun r => r.unique_id == uid)).getD ⟨0, [], []⟩

/-- All surviving candidates of one example in feature order (source lines
    618-683). -/
def prelim_all (features : List InputFeatures) (results : List RawResult)
    (n_best_size max_answer_length : ℕ) : List PrelimPrediction :=
  (features.enum.map fun fi =>
    prelim_predictions_for_feature fi.1 fi.2 (result_for results fi.2.unique_id)
      n_best_size max_answer_length).flatten

/-- The null-score scan of write_predictions (source lines 613-655): minimum
    of start_logits[0] + end_logits[0] over the features of the example,
    together with the achieving feature index and its two marker logits,
    starting from the sentinel 1000000. Returns
    (score_null, min_null_feature_index, null_start_logit, null_end_logit). -/
def null_scan_go : List RawResult → ℕ → ℚ × ℕ × ℚ × ℚ → ℚ × ℕ × ℚ × ℚ
  | [], _, acc => acc
  | r :: rs, idx, acc =>
    let fns := r.start_logits.getD 0 0 + r.end_logits.getD 0 0
    if fns < acc.1 then
      null_scan_go rs (idx + 1) (fns, idx, r.start_logits.getD 0 0, r.end_logits.getD 0 0)
    else null_scan_go rs (idx + 1) acc

def null_scan (results : List RawResult) : ℚ × ℕ × ℚ × ℚ :=
  null_scan_go results 0 (1000000, 0, 0, 0)

/-- Detokenization of one predicted token span (source lines 709-724), with
    get_final_text abstracted as the collaborator gft since it depends on the
    external BasicTokenizer. -/
def pred_final_text (gft : String → String → String) (feature : InputFeatures)
    (doc_tokens : List String) (pred : PrelimPrediction) : String :=
  let tok_tokens := (feature.tokens.drop pred.start_index).take (pred.end_index + 1 - pred.start_index)
  let orig_doc_start := (feature.token_to_orig_map pred.start_index).getD 0
  let orig_doc_end := (feature.token_to_orig_map pred.end_index).getD 0
  let orig_tokens := (doc_tokens.drop orig_doc_start).take (orig_doc_end + 1 - orig_doc_start)
  let t1 := ((join_words tok_tokens).replace " ##" "").replace "##" ""
  let tok_text := join_words ((t1.split fun c => c.isWhitespace).filter fun s => ¬ s.isEmpty)
  gft tok_text (join_words orig_tokens)

/-- The n-best assembly loop (source lines 702-736): stop once n_best_size
    entries are kept, deduplicate by final text, empty text for a candidate
    whose start index is 0. Returns the built list and the seen-text set. -/
def nbest_loop (gft : String → String → String) (features : List InputFeatures)
    (doc_tokens : List String) (n_best_size : ℕ) :
    List PrelimPrediction → List NbestPrediction → List String → List NbestPrediction × List String
  | [], nbest, seen => (nbest.reverse, seen)
  | pred :: preds, nbest, seen =>
    if n_best_size ≤ nbest.length then (nbest.reverse, seen)
    else
      let feature := features.getD pred.feature_index default
      if 0 < pred.start_index then
        let final_text := pred_final_text gft feature doc_tokens pred
        if seen.contains final_text then nbest_loop gft features doc_tokens n_best_size preds nbest seen
        else
          nbest_loop gft features doc_tokens n_best_size preds
            (⟨final_text, pred.start_logit, pred.end_logit⟩ :: nbest) (final_text :: seen)
      else
        nbest_loop gft features doc_tokens n_best_size preds
          (⟨"", pred.start_logit, pred.end_logit⟩ :: nbest) ("" :: seen)

/-- Aggregated outcome for one example: its n-best list, its best-answer
    entry and its recorded score_diff. answer = none models the
    AttributeError raised at source line 803 when version-2 mode finds no
    non-null n-best entry. -/
structure ExampleOutcome where
  nbest : List NbestPrediction
  answer : Option String
  score_diff : Option ℚ
deriving DecidableEq

/-- Per-example body of write_predictions (source lines 608-813): candidate
    filtering, null-candidate injection, descending stable sort on logit sum,
    n-best assembly with the placeholder for the no-survivor case, and the
    final answer selection in plain and version-2 mode. -/
def write_predictions_for_example (gft : String → String → String)
    (features : List InputFeatures) (results : List RawResult) (doc_tokens : List String)
    (n_best_size max_answer_length : ℕ) (is_version2 : Bool)
    (null_score_diff_threshold : ℚ) : ExampleOutcome :=
  let prelim := prelim_all features results n_best_size max_answer_length
  let ns := null_scan (features.map fun f => result_for results f.unique_id)
  let prelim2 := if is_version2 then prelim ++ [⟨ns.2.1, 0, 0, ns.2.2.1, ns.2.2.2⟩] else prelim
  let prelim3 := sorted_desc (fun x => x.start_logit + x.end_logit) prelim2
  let nb := nbest_loop gft features doc_tokens n_best_size prelim3 [] []
  let nbest1 := if is_version2 && ! nb.2.contains "" then nb.1 ++ [⟨"", ns.2.2.1, ns.2.2.2⟩] else nb.1
  let nbest := if nbest1.isEmpty then [⟨"empty", 0, 0⟩] else nbest1
  if ! is_version2 then
    ⟨nbest, nbest.head?.map (fun e => e.text), none⟩
  else
    match nbest.find? (fun e => ! e.text.isEmpty) with
    | none => ⟨nbest, none, none⟩
    | some b =>
      let score_diff := ns.1 - b.start_logit - b.end_logit
      ⟨nbest, some (if null_score_diff_threshold < score_diff then "" else b.text), some score_diff⟩

/-- Concrete tokenizer used in the counterexample inputs: the two two-letter
    words split into two subwords each, everything else is kept whole. -/
def tk_ex : String → List String := fun t =>
  if t = "ab" then ["a", "##b"] else if t = "cd" then ["c", "##d"] else [t]

/-- Concrete identity-like tokenizer for witnesses. -/
def tk_id : String → List String := fun t => [t]

/-- Every span that the sliding-window loop appends has
    length = min(remaining stream, max_tokens_for_doc), with no side
    conditions on the parameters. -/
theorem doc_spans_go_min (n W stride : ℤ) :
    ∀ (fuel : ℕ) (s : ℤ) (l : List DocSpan), doc_spans_go n W stride fuel s = some l →
    ∀ sp ∈ l, sp.length = min (n - sp.start) W := by
  intro fuel
  induction fuel with
  | zero =>
    intro s l h sp hsp
    simp only [doc_spans_go] at h
    split at h
    · exact absurd h (by simp)
    · injection h with h; subst h; simp at hsp
  | succ fuel ih =>
    intro s l h sp hsp
    simp only [doc_spans_go] at h
    split at h
    next hs =>
      split at h
      next hbreak =>
        injection h with h
        subst h
        simp only [List.mem_singleton] at hsp
        subst hsp
        simp
      next hbreak =>
        cases hrec : doc_spans_go n W stride fuel (s + min (min (n - s) W) stride) with
        | none => rw [hrec] at h; exact absurd h (by simp)
        | some l2 =>
          rw [hrec] at h
          injection h with h
          subst h
          rcases List.mem_cons.mp hsp with h1 | h2
          · subst h1; simp
          · exact ih _ _ hrec sp h2
    next hs =>
      injection h with h; subst h; simp at hsp

/-- With a positive document budget and stride, fuel covering the remaining
    stream length is enough for the sliding-window loop to finish. -/
theorem doc_spans_go_total (n W stride : ℤ) (hW : 1 ≤ W) (hstr : 1 ≤ stride) :
    ∀ (fuel : ℕ) (s : ℤ), n - s ≤ (fuel : ℤ) → ∃ l, doc_spans_go n W stride fuel s = some l := by
  intro fuel
  induction fuel with
  | zero =>
    intro s hle
    refine ⟨[], ?_⟩
    simp only [doc_spans_go]
    rw [if_neg (by omega)]
  | succ fuel ih =>
    intro s hle
    simp only [doc_spans_go]
    by_cases hs : s < n
    · rw [if_pos hs]
      by_cases hbr : s + min (n - s) W = n
      · rw [if_pos hbr]; exact ⟨_, rfl⟩
      · rw [if_neg hbr]
        obtain ⟨l2, hl2⟩ := ih (s + min (min (n - s) W) stride) (by omega)
        rw [hl2]
        exact ⟨_, rfl⟩
    · rw [if_neg hs]; exact ⟨_, rfl⟩

/-- With a non-empty stream and a non-positive document budget the loop never
    exits: the advance is non-positive, so start_offset never reaches the end,
    for any amount of fuel. -/
theorem doc_spans_go_diverges (n W stride : ℤ) (hn : 1 ≤ n) (hW : W ≤ 0) :
    ∀ (fuel : ℕ) (s : ℤ), s ≤ 0 → doc_spans_go n W stride fuel s = none := by
  intro fuel
  induction fuel with
  | zero => intro s hs; simp only [doc_spans_go]; rw [if_pos (by omega)]
  | succ fuel ih =>
    intro s hs
    simp only [doc_spans_go]
    rw [if_pos (by omega)]
    have hmin : min (n - s) W = W := by omega
    rw [if_neg (by omega)]
    rw [ih (s + min (min (n - s) W) stride) (by omega)]

/-- Structure of a terminating window partition starting at offset s: empty
    past the end, headed by the span at s, covering exactly the positions from
    s to the stream end, with each span of budget length and each successor
    starting exactly stride positions further (capped by the span length). -/
theorem doc_spans_go_bundle (n W stride : ℤ) (hW : 1 ≤ W) (hstr : 1 ≤ stride) :
    ∀ (fuel : ℕ) (s : ℤ) (l : List DocSpan),
      doc_spans_go n W stride fuel s = some l →
      ((n ≤ s → l = []) ∧
       (s < n → ∃ tail, l = ⟨s, min (n - s) W⟩ :: tail) ∧
       (∀ p : ℤ, (s ≤ p ∧ p < n) ↔ ∃ sp ∈ l, sp.start ≤ p ∧ p < sp.start + sp.length) ∧
       List.Chain' (fun a b => a.length = W ∧ b.start = a.start + min a.length stride) l) := by
  intro fuel
  induction fuel with
  | zero =>
    intro s l h
    simp only [doc_spans_go] at h
    split at h
    · exact absurd h (by simp)
    next hs =>
      injection h with h; subst h
      refine ⟨fun _ => rfl, fun hlt => absurd hlt (by omega), ?_, List.chain'_nil⟩
      intro p
      constructor
      · intro hp; omega
      · rintro ⟨sp, hsp, -⟩; simp at hsp
  | succ fuel ih =>
    intro s l h
    simp only [doc_spans_go] at h
    split at h
    next hs =>
      split at h
      next hbr =>
        injection h with h; subst h
        refine ⟨fun hn => absurd hs (by omega), fun _ => ⟨[], rfl⟩, ?_, List.chain'_singleton _⟩
        intro p
        constructor
        · intro hp
          refine ⟨⟨s, min (n - s) W⟩, List.mem_singleton_self _, ?_⟩
          dsimp only
          omega
        · rintro ⟨sp, hmem, hcov⟩
          rw [List.mem_singleton] at hmem
          subst hmem
          dsimp only at hcov
          omega
      next hbr =>
        cases hrec : doc_spans_go n W stride fuel (s + min (min (n - s) W) stride) with
        | none => rw [hrec] at h; exact absurd h (by simp)
        | some l2 =>
          rw [hrec] at h
          injection h with h; subst h
          obtain ⟨ih1, ih2, ih3, ih4⟩ := ih _ _ hrec
          have hlen : min (n - s) W = W := by omega
          have hs2 : s + min (min (n - s) W) stride < n := by omega
          obtain ⟨tail2, htail2⟩ := ih2 hs2
          refine ⟨fun hn => absurd hs (by omega), fun _ => ⟨l2, rfl⟩, ?_, ?_⟩
          · intro p
            constructor
            · intro hp
              by_cases hple : p < s + min (n - s) W
              · refine ⟨⟨s, min (n - s) W⟩, List.mem_cons_self _ _, ?_⟩
                dsimp only
                omega
              · obtain ⟨sp, hmem, hc⟩ := (ih3 p).mp ⟨by omega, hp.2⟩
                exact ⟨sp, List.mem_cons_of_mem _ hmem, hc⟩
            · rintro ⟨sp, hmem, hc⟩
              rcases List.mem_cons.mp hmem with rfl | hmem2
              · dsimp only at hc; omega
              · have := (ih3 p).mpr ⟨sp, hmem2, hc⟩
                omega
          · rw [htail2]
            rw [htail2] at ih4
            refine List.Chain'.cons ⟨by dsimp only; omega, by dsimp only⟩ ih4
    next hs =>
      injection h with h; subst h
      refine ⟨fun _ => rfl, fun hlt => absurd hlt (by omega), ?_, List.chain'_nil⟩
      intro p
      constructor
      · intro hp; omega
      · rintro ⟨sp, hsp, -⟩; simp at hsp

/-- Under positive budget and stride doc_spans is the terminating loop result. -/
theorem doc_spans_some (n W stride : ℤ) (hW : 1 ≤ W) (hstr : 1 ≤ stride) :
    doc_spans_go n W stride (n.toNat + 1) 0 = some (doc_spans n W stride) := by
  obtain ⟨l, hl⟩ := doc_spans_go_total n W stride hW hstr (n.toNat + 1) 0 (by omega)
  simp [doc_spans, hl]

/-- Length of a zero-padded id list. -/
theorem pad_length (l : List ℤ) (m : ℕ) (h : l.length ≤ m) :
    (l ++ List.replicate (m - l.length) (0 : ℤ)).length = m := by
  simp
  omega

/-- C10: the window-partition loop terminates exactly under the stated
    precondition. With max_tokens_for_doc at least 1 and doc_stride at least 1
    the start offset strictly increases every iteration and the loop
    terminates from offset 0 given fuel covering the stream length; with a
    non-empty subword stream and max_tokens_for_doc at most 0 the increment
    min(length, doc_stride) is non-positive and the loop never terminates,
    whatever the fuel. -/
theorem c10_window_loop_termination (n W stride : ℤ) :
    ((1 ≤ W → 1 ≤ stride →
      (∀ s : ℤ, s < n → s < s + min (min (n - s) W) stride) ∧
      (∀ fuel : ℕ, n ≤ (fuel : ℤ) → ∃ l, doc_spans_go n W stride fuel 0 = some l)) ∧
     (1 ≤ n → W ≤ 0 →
      (∀ s : ℤ, s ≤ 0 → min (min (n - s) W) stride ≤ 0) ∧
      (∀ fuel : ℕ, doc_spans_go n W stride fuel 0 = none))) := by
  constructor
  · intro hW hstr
    refine ⟨fun s hs => by omega, fun fuel hfuel => ?_⟩
    exact doc_spans_go_total n W stride hW hstr fuel 0 (by omega)
  · intro hn hW
    refine ⟨fun s hs => by omega, fun fuel => ?_⟩
    exact doc_spans_go_diverges n W stride hn hW fuel 0 (by omega)

/-- C10 witness: the loop with budget 3 and stride 2 finishes a stream of 5
    tokens, and with budget -1 it never finishes it. -/
theorem c10_witness :
    (∃ l, doc_spans_go 5 3 2 6 0 = some l) ∧ doc_spans_go 5 (-1) 2 99 0 = none :=
  ⟨((c10_window_loop_termination 5 3 2).1 (by norm_num) (by norm_num)).2 6 (by norm_num),
   ((c10_window_loop_termination 5 (-1) 2).2 (by norm_num) (by norm_num)).2 99⟩

/-- C5 counterexample: the claimed overlap bound window_length - stride fails
    as soon as the stride exceeds the budget, although both preconditions of
    the claim hold: with budget 3, stride 5 and 10 tokens the loop produces
    adjacent spans of overlap 0, which is not at most 3 - 5 = -2. -/
theorem c5_counterexample :
    (1 : ℤ) ≤ 3 ∧ (1 : ℤ) ≤ 5 ∧
    doc_spans 10 3 5 = [⟨0, 3⟩, ⟨3, 3⟩, ⟨6, 3⟩, ⟨9, 1⟩] ∧
    ¬ span_overlap ⟨6, 3⟩ ⟨9, 1⟩ ≤ 3 - 5 := by
  refine ⟨by norm_num, by norm_num, by decide, by decide⟩

/-- C5 (amended): with budget and stride at least 1, the first produced span
    starts at offset 0, the spans cover exactly the stream positions 0 to
    n - 1 with no gap, and consecutive spans overlap by at most
    max(window_length - stride, 0). -/
theorem c5_window_partition (n W stride : ℤ) (hW : 1 ≤ W) (hstr : 1 ≤ stride) :
    (∀ sp, (doc_spans n W stride).head? = some sp → sp.start = 0) ∧
    (∀ p : ℤ, (0 ≤ p ∧ p < n) ↔ ∃ sp ∈ doc_spans n W stride, sp.start ≤ p ∧ p < sp.start + sp.length) ∧
    List.Chain' (fun a b => span_overlap a b ≤ max (W - stride) 0) (doc_spans n W stride) := by
  have hgo := doc_spans_some n W stride hW hstr
  obtain ⟨h1, h2, h3, h4⟩ := doc_spans_go_bundle n W stride hW hstr _ _ _ hgo
  refine ⟨?_, h3, ?_⟩
  · intro sp hsp
    by_cases hn : 0 < n
    · obtain ⟨tail, htail⟩ := h2 hn
      rw [htail] at hsp
      simp only [List.head?_cons, Option.some.injEq] at hsp
      rw [← hsp]
    · rw [h1 (by omega)] at hsp
      simp at hsp
  · refine h4.imp ?_
    rintro a b ⟨ha, hb⟩
    unfold span_overlap
    omega

/-- C5 witness: position 2 of a 5-token stream is covered by one of the spans
    produced with budget 3 and stride 2. -/
theorem c5_witness :
    ∃ sp ∈ doc_spans 5 3 2, sp.start ≤ 2 ∧ (2 : ℤ) < sp.start + sp.length :=
  ((c5_window_partition 5 3 2 (by norm_num) (by norm_num)).2.1 2).mp (by norm_num)

/-- C9: when the document budget max_seq_length - len(query_tokens) - 3 is at
    least 1, every window of the example yields a pre-padding token sequence
    of length at most max_seq_length, and input_ids, input_mask and
    segment_ids all have length exactly max_seq_length after padding. -/
theorem c9_feature_lengths (tid : String → ℤ) (query_tokens all_doc_tokens : List String)
    (max_seq_length : ℕ) (stride : ℤ) (sp : DocSpan)
    (hW : 1 ≤ (max_seq_length : ℤ) - query_tokens.length - 3)
    (hsp : sp ∈ doc_spans (all_doc_tokens.length)
      ((max_seq_length : ℤ) - query_tokens.length - 3) stride) :
    (build_feature tid query_tokens all_doc_tokens max_seq_length sp).1.length ≤ max_seq_length ∧
    (build_feature tid query_tokens all_doc_tokens max_seq_length sp).2.1.length = max_seq_length ∧
    (build_feature tid query_tokens all_doc_tokens max_seq_length sp).2.2.1.length = max_seq_length ∧
    (build_feature tid query_tokens all_doc_tokens max_seq_length sp).2.2.2.length = max_seq_length := by
  have hlen : sp.length = min ((all_doc_tokens.length : ℤ) - sp.start)
      ((max_seq_length : ℤ) - query_tokens.length - 3) := by
    cases hgo : doc_spans_go (all_doc_tokens.length)
        ((max_seq_length : ℤ) - query_tokens.length - 3) stride
        ((all_doc_tokens.length : ℤ).toNat + 1) 0 with
    | none =>
      rw [doc_spans, hgo] at hsp
      simp at hsp
    | some l =>
      rw [doc_spans, hgo] at hsp
      simp only [Option.getD_some] at hsp
      exact doc_spans_go_min _ _ _ _ _ _ hgo sp hsp
  have hts : ((all_doc_tokens.drop sp.start.toNat).take sp.length.toNat).length
      ≤ max_seq_length - query_tokens.length - 3 := by
    simp only [List.length_take, List.length_drop]
    omega
  refine ⟨?_, ?_, ?_, ?_⟩ <;> simp [build_feature] <;> omega

/-- C9 witness: a concrete window with budget 2 built from a single-token
    query and a 4-token document at max_seq_length 6. -/
theorem c9_witness :
    (build_feature (fun _ => (7 : ℤ)) ["q"] ["a", "b", "c", "d"] 6 ⟨0, 2⟩).2.1.length = 6 :=
  (c9_feature_lengths (fun _ => (7 : ℤ)) ["q"] ["a", "b", "c", "d"] 6 1 ⟨0, 2⟩
    (by norm_num) (by decide)).2.1

/-- The accumulator loop equals the fold pick over the candidate list. -/
theorem best_loop_eq_pick (p : ℤ) :
    ∀ (l : List DocSpan) (idx : ℕ) (acc : Option (ℚ × ℕ)),
      best_loop p l idx acc = pick acc (cands p l idx) := by
  intro l
  induction l with
  | nil => intro idx acc; cases acc <;> rfl
  | cons sp rest ih =>
    intro idx acc
    simp only [best_loop, cands]
    by_cases h1 : p < sp.start
    · rw [if_pos h1, if_pos h1, ih]
    · rw [if_neg h1, if_neg h1]
      by_cases h2 : span_end sp < p
      · rw [if_pos h2, if_pos h2, ih]
      · rw [if_neg h2, if_neg h2]
        cases acc with
        | none => rw [ih]; rfl
        | some b =>
          dsimp only
          simp only [pick]
          dsimp only
          by_cases h3 : b.1 < ctx_score sp p
          · rw [if_pos h3, if_pos h3]; exact ih _ _
          · rw [if_neg h3, if_neg h3]; exact ih _ _

/-- pick started from an existing best never loses it entirely. -/
theorem pick_some_ne_none : ∀ (cs : List (ℚ × ℕ)) (b : ℚ × ℕ), pick (some b) cs ≠ none := by
  intro cs
  induction cs with
  | nil => intro b h; exact absurd h (by simp [pick])
  | cons c cs ih =>
    intro b
    simp only [pick]
    by_cases h : b.1 < c.1
    · rw [if_pos h]; exact ih c
    · rw [if_neg h]; exact ih b

/-- First-strict-maximum characterisation of the pick fold: the result is one
    of the candidates (or the seed), its score is maximal, and every candidate
    with a smaller index has a strictly smaller score. Candidate indices are
    assumed strictly increasing, the seed index below all of them. -/
theorem pick_spec : ∀ (cs : List (ℚ × ℕ)) (b r : ℚ × ℕ),
    pick (some b) cs = some r →
    (∀ c ∈ cs, b.2 < c.2) → List.Pairwise (fun x y => x.2 < y.2) cs →
    ((r = b ∨ r ∈ cs) ∧ b.1 ≤ r.1 ∧ (∀ c ∈ cs, c.1 ≤ r.1) ∧
     (∀ c, (c = b ∨ c ∈ cs) → c.2 < r.2 → c.1 < r.1)) := by
  intro cs
  induction cs with
  | nil =>
    intro b r h hb hp
    simp only [pick] at h
    injection h with h; subst h
    refine ⟨Or.inl rfl, le_refl _, by simp, ?_⟩
    rintro c (rfl | hc) hlt
    · omega
    · simp at hc
  | cons c0 cs ih =>
    intro b r h hb hp
    simp only [pick] at h
    have hb0 : b.2 < c0.2 := hb c0 (List.mem_cons_self _ _)
    have hbt : ∀ c ∈ cs, c0.2 < c.2 := (List.pairwise_cons.mp hp).1
    have hpt : List.Pairwise (fun x y => x.2 < y.2) cs := (List.pairwise_cons.mp hp).2
    by_cases hbc : b.1 < c0.1
    · rw [if_pos hbc] at h
      obtain ⟨A, B, C, D⟩ := ih c0 r h hbt hpt
      refine ⟨?_, le_of_lt (lt_of_lt_of_le hbc B), ?_, ?_⟩
      · rcases A with rfl | hA
        · exact Or.inr (List.mem_cons_self _ _)
        · exact Or.inr (List.mem_cons_of_mem _ hA)
      · intro c hc
        rcases List.mem_cons.mp hc with rfl | hc2
        · exact B
        · exact C c hc2
      · rintro c (rfl | hc) hlt
        · exact lt_of_lt_of_le hbc B
        · rcases List.mem_cons.mp hc with rfl | hc2
          · exact D c (Or.inl rfl) hlt
          · exact D c (Or.inr hc2) hlt
    · rw [if_neg hbc] at h
      obtain ⟨A, B, C, D⟩ := ih b r h (fun c hc => hb c (List.mem_cons_of_mem _ hc)) hpt
      have hc0b : c0.1 ≤ b.1 := le_of_not_lt hbc
      refine ⟨?_, B, ?_, ?_⟩
      · rcases A with rfl | hA
        · exact Or.inl rfl
        · exact Or.inr (List.mem_cons_of_mem _ hA)
      · intro c hc
        rcases List.mem_cons.mp hc with rfl | hc2
        · exact le_trans hc0b B
        · exact C c hc2
      · rintro c (rfl | hc) hlt
        · exact D c (Or.inl rfl) hlt
        · rcases List.mem_cons.mp hc with rfl | hc2
          · rcases A with rfl | hA
            · omega
            · have hbr : b.2 < r.2 := hb r (List.mem_cons_of_mem _ hA)
              exact lt_of_le_of_lt hc0b (D b (Or.inl rfl) hbr)
          · exact D c (Or.inr hc2) hlt

/-- Membership in the candidate list: exactly the covered positions of the
    span list, scored, with shifted indices. -/
theorem cands_mem (p : ℤ) : ∀ (l : List DocSpan) (idx : ℕ) (c : ℚ × ℕ),
    c ∈ cands p l idx ↔
      ∃ k, k < l.length ∧ Covers (l.getD k ⟨0, 0⟩) p ∧
        c = (ctx_score (l.getD k ⟨0, 0⟩) p, idx + k) := by
  intro l
  induction l with
  | nil => intro idx c; simp [cands]
  | cons sp rest ih =>
    intro idx c
    have hshift : (∃ k, k < rest.length ∧ Covers (rest.getD k ⟨0, 0⟩) p ∧
        c = (ctx_score (rest.getD k ⟨0, 0⟩) p, (idx + 1) + k)) ↔
        (∃ k, 0 < k ∧ k < (sp :: rest).length ∧ Covers ((sp :: rest).getD k ⟨0, 0⟩) p ∧
        c = (ctx_score ((sp :: rest).getD k ⟨0, 0⟩) p, idx + k)) := by
      constructor
      · rintro ⟨k, hk, hcov, rfl⟩
        refine ⟨k + 1, Nat.succ_pos k, by simp only [List.length_cons]; omega, ?_, ?_⟩
        · rw [List.getD_cons_succ]; exact hcov
        · rw [List.getD_cons_succ]
          rw [show idx + (k + 1) = idx + 1 + k from by omega]
      · rintro ⟨k, hk0, hk, hcov, rfl⟩
        cases k with
        | zero => exact absurd hk0 (by omega)
        | succ k2 =>
          rw [List.getD_cons_succ] at hcov
          refine ⟨k2, by simp only [List.length_cons] at hk; omega, hcov, ?_⟩
          rw [List.getD_cons_succ]
          rw [show idx + (k2 + 1) = idx + 1 + k2 from by omega]
    simp only [cands]
    by_cases h1 : p < sp.start
    · rw [if_pos h1, ih]
      rw [hshift]
      constructor
      · rintro ⟨k, hk0, hk, hcov, hc⟩
        exact ⟨k, hk, hcov, hc⟩
      · rintro ⟨k, hk, hcov, hc⟩
        refine ⟨k, ?_, hk, hcov, hc⟩
        rcases Nat.eq_zero_or_pos k with rfl | hpos
        · exfalso
          simp only [List.getD_cons_zero] at hcov
          exact absurd hcov.1 (by omega)
        · exact hpos
    · rw [if_neg h1]
      by_cases h2 : span_end sp < p
      · rw [if_pos h2, ih]
        rw [hshift]
        constructor
        · rintro ⟨k, hk0, hk, hcov, hc⟩
          exact ⟨k, hk, hcov, hc⟩
        · rintro ⟨k, hk, hcov, hc⟩
          refine ⟨k, ?_, hk, hcov, hc⟩
          rcases Nat.eq_zero_or_pos k with rfl | hpos
          · exfalso
            simp only [List.getD_cons_zero] at hcov
            exact absurd hcov.2 (by omega)
          · exact hpos
      · rw [if_neg h2]
        constructor
        · intro hc
          rcases List.mem_cons.mp hc with rfl | hc2
          · exact ⟨0, by simp, by simp [Covers]; omega, by simp⟩
          · obtain ⟨k, hk0, hk, hcov, heq⟩ := hshift.mp ((ih (idx + 1) c).mp hc2)
            exact ⟨k, hk, hcov, heq⟩
        · rintro ⟨k, hk, hcov, heq⟩
          rcases Nat.eq_zero_or_pos k with rfl | hpos
          · simp only [List.getD_cons_zero] at heq
            rw [heq]
            simp
          · refine List.mem_cons_of_mem _ ((ih (idx + 1) c).mpr (hshift.mpr ⟨k, hpos, hk, hcov, heq⟩))

/-- Candidate indices start at the running index. -/
theorem cands_lb (p : ℤ) (l : List DocSpan) (idx : ℕ) :
    ∀ c ∈ cands p l idx, idx ≤ c.2 := by
  intro c hc
  obtain ⟨k, -, -, rfl⟩ := (cands_mem p l idx c).mp hc
  omega

/-- Candidate indices are strictly increasing along the candidate list. -/
theorem cands_pairwise (p : ℤ) :
    ∀ (l : List DocSpan) (idx : ℕ), List.Pairwise (fun x y => x.2 < y.2) (cands p l idx) := by
  intro l
  induction l with
  | nil => intro idx; simp [cands]
  | cons sp rest ih =>
    intro idx
    simp only [cands]
    by_cases h1 : p < sp.start
    · rw [if_pos h1]; exact ih _
    · rw [if_neg h1]
      by_cases h2 : span_end sp < p
      · rw [if_pos h2]; exact ih _
      · rw [if_neg h2]
        refine List.Pairwise.cons ?_ (ih _)
        intro c hc
        have := cands_lb p rest (idx + 1) c hc
        dsimp only
        omega

/-- best_span_index is none exactly when no span of the list contains the
    position. -/
theorem best_none_iff (spans : List DocSpan) (p : ℤ) :
    best_span_index spans p = none ↔
      ∀ k, k < spans.length → ¬ Covers (spans.getD k ⟨0, 0⟩) p := by
  unfold best_span_index
  rw [best_loop_eq_pick]
  constructor
  · intro h k hk hcov
    cases hc : cands p spans 0 with
    | nil =>
      have : (ctx_score (spans.getD k ⟨0, 0⟩) p, 0 + k) ∈ cands p spans 0 :=
        (cands_mem p spans 0 _).mpr ⟨k, hk, hcov, rfl⟩
      rw [hc] at this
      simp at this
    | cons c cs =>
      rw [hc] at h
      have : pick (some c) cs = none := by
        cases hpk : pick (some c) cs with
        | none => rfl
        | some r => rw [show pick none (c :: cs) = pick (some c) cs from rfl, hpk] at h; simp at h
      exact absurd this (pick_some_ne_none cs c)
  · intro h
    have hnil : cands p spans 0 = [] := by
      cases hc : cands p spans 0 with
      | nil => rfl
      | cons c cs =>
        exfalso
        obtain ⟨k, hk, hcov, -⟩ := (cands_mem p spans 0 c).mp (hc ▸ List.mem_cons_self c cs)
        exact h k hk hcov
    rw [hnil]
    rfl

/-- Forward characterisation: when best_span_index returns some j, span j is
    the first covering span attaining the maximal context score. -/
theorem best_some_spec (spans : List DocSpan) (p : ℤ) (j : ℕ)
    (h : best_span_index spans p = some j) :
    (j < spans.length ∧ Covers (spans.getD j ⟨0, 0⟩) p ∧
     (∀ k, k < spans.length → Covers (spans.getD k ⟨0, 0⟩) p →
       ctx_score (spans.getD k ⟨0, 0⟩) p ≤ ctx_score (spans.getD j ⟨0, 0⟩) p) ∧
     (∀ k, k < spans.length → k < j → Covers (spans.getD k ⟨0, 0⟩) p →
       ctx_score (spans.getD k ⟨0, 0⟩) p < ctx_score (spans.getD j ⟨0, 0⟩) p)) := by
  unfold best_span_index at h
  rw [best_loop_eq_pick] at h
  cases hc : cands p spans 0 with
  | nil => rw [hc] at h; simp [pick] at h
  | cons c cs =>
    rw [hc] at h
    rw [show pick none (c :: cs) = pick (some c) cs from rfl] at h
    cases hpk : pick (some c) cs with
    | none => rw [hpk] at h; simp at h
    | some r =>
      rw [hpk] at h
      simp only [Option.map_some', Option.some.injEq] at h
      have hpw : List.Pairwise (fun x y => x.2 < y.2) (c :: cs) := hc ▸ cands_pairwise p spans 0
      obtain ⟨A, B, C, D⟩ := pick_spec cs c r hpk (List.pairwise_cons.mp hpw).1
        (List.pairwise_cons.mp hpw).2
      have hrmem : r ∈ cands p spans 0 := by
        rw [hc]
        rcases A with rfl | hA
        · exact List.mem_cons_self _ _
        · exact List.mem_cons_of_mem _ hA
      obtain ⟨kj, hkj, hcovj, hrj⟩ := (cands_mem p spans 0 r).mp hrmem
      have hr2 : r.2 = kj := by rw [hrj]; simp
      have hj : kj = j := by rw [← h, hr2]
      subst hj
      have hr1 : r.1 = ctx_score (spans.getD kj ⟨0, 0⟩) p := by rw [hrj]
      refine ⟨hkj, hcovj, ?_, ?_⟩
      · intro k hk hcov
        have hkmem : (ctx_score (spans.getD k ⟨0, 0⟩) p, 0 + k) ∈ c :: cs := by
          rw [← hc]
          exact (cands_mem p spans 0 _).mpr ⟨k, hk, hcov, rfl⟩
        rw [← hr1]
        rcases List.mem_cons.mp hkmem with heq | hmem
        · calc ctx_score (spans.getD k ⟨0, 0⟩) p = c.1 := by rw [← heq]
            _ ≤ r.1 := B
        · calc ctx_score (spans.getD k ⟨0, 0⟩) p
              = ((ctx_score (spans.getD k ⟨0, 0⟩) p, 0 + k) : ℚ × ℕ).1 := rfl
            _ ≤ r.1 := C _ hmem
      · intro k hk hklt hcov
        have hkmem : (ctx_score (spans.getD k ⟨0, 0⟩) p, 0 + k) ∈ c :: cs := by
          rw [← hc]
          exact (cands_mem p spans 0 _).mpr ⟨k, hk, hcov, rfl⟩
        have hd := D (ctx_score (spans.getD k ⟨0, 0⟩) p, 0 + k)
          (by rcases List.mem_cons.mp hkmem with heq | hmem
              · exact Or.inl heq
              · exact Or.inr hmem)
          (by rw [hr2]; omega)
        rw [← hr1]
        exact hd

/-- best_span_index is some j exactly when span j is the first covering span
    attaining the maximal context score for the position. -/
theorem best_some_iff (spans : List DocSpan) (p : ℤ) (j : ℕ) :
    best_span_index spans p = some j ↔
      (j < spans.length ∧ Covers (spans.getD j ⟨0, 0⟩) p ∧
       (∀ k, k < spans.length → Covers (spans.getD k ⟨0, 0⟩) p →
         ctx_score (spans.getD k ⟨0, 0⟩) p ≤ ctx_score (spans.getD j ⟨0, 0⟩) p) ∧
       (∀ k, k < spans.length → k < j → Covers (spans.getD k ⟨0, 0⟩) p →
         ctx_score (spans.getD k ⟨0, 0⟩) p < ctx_score (spans.getD j ⟨0, 0⟩) p)) := by
  constructor
  · exact best_some_spec spans p j
  · rintro ⟨hj, hcov, hmax, hfirst⟩
    cases hb : best_span_index spans p with
    | none =>
      exfalso
      exact (best_none_iff spans p).mp hb j hj hcov
    | some j2 =>
      obtain ⟨hj2, hcov2, hmax2, hfirst2⟩ := best_some_spec spans p j2 hb
      rcases lt_trichotomy j j2 with hlt | heq | hgt
      · have h1 := hfirst2 j hj hlt hcov
        have h2 := hmax j2 hj2 hcov2
        exact absurd (lt_of_le_of_lt h2 h1) (lt_irrefl _)
      · rw [heq]
      · have h1 := hfirst j2 hj2 hgt hcov2
        have h2 := hmax2 j hj hcov
        exact absurd (lt_of_le_of_lt h2 h1) (lt_irrefl _)

/-- Membership in the covering index list. -/
theorem covering_idx_mem (spans : List DocSpan) (p : ℤ) (i : ℕ) :
    i ∈ covering_idx spans p ↔ (i < spans.length ∧ Covers (spans.getD i ⟨0, 0⟩) p) := by
  simp [covering_idx, List.mem_filter, List.mem_range]

/-- The boolean result of _check_is_max_context unfolded to the best index. -/
theorem check_iff_best (spans : List DocSpan) (p : ℤ) (i : ℕ) :
    check_is_max_context spans i p = true ↔ best_span_index spans p = some i := by
  unfold check_is_max_context
  rw [beq_iff_eq]

/-- C6: a position covered by exactly one span is owned by that span, and a
    position covered by two or more spans has exactly one owner among its
    covering spans (so _check_is_max_context is false on all the others). -/
theorem c6_owner_resolution (spans : List DocSpan) (p : ℤ) :
    (∀ i, covering_idx spans p = [i] → check_is_max_context spans i p = true) ∧
    (2 ≤ (covering_idx spans p).length →
      ((covering_idx spans p).filter (fun i => check_is_max_context spans i p)).length = 1) := by
  constructor
  · intro i hu
    have hi : i ∈ covering_idx spans p := by rw [hu]; exact List.mem_singleton_self i
    obtain ⟨hilen, hicov⟩ := (covering_idx_mem spans p i).mp hi
    cases hb : best_span_index spans p with
    | none => exact absurd hicov ((best_none_iff spans p).mp hb i hilen)
    | some j =>
      obtain ⟨hjlen, hjcov, -, -⟩ := best_some_spec spans p j hb
      have hji : j ∈ covering_idx spans p := (covering_idx_mem spans p j).mpr ⟨hjlen, hjcov⟩
      rw [hu, List.mem_singleton] at hji
      rw [check_iff_best, hb, hji]
  · intro h2
    have hex : ∃ i, i ∈ covering_idx spans p := by
      cases hcv : covering_idx spans p with
      | nil => rw [hcv] at h2; simp at h2
      | cons a t => exact ⟨a, hcv ▸ List.mem_cons_self a t⟩
    obtain ⟨i0, hi0⟩ := hex
    obtain ⟨hi0len, hi0cov⟩ := (covering_idx_mem spans p i0).mp hi0
    cases hb : best_span_index spans p with
    | none => exact absurd hi0cov ((best_none_iff spans p).mp hb i0 hi0len)
    | some j =>
      obtain ⟨hjlen, hjcov, -, -⟩ := best_some_spec spans p j hb
      have hje : j ∈ covering_idx spans p := (covering_idx_mem spans p j).mpr ⟨hjlen, hjcov⟩
      have hcongr : ∀ a ∈ covering_idx spans p,
          check_is_max_context spans a p = (a == j) := by
        intro a ha
        by_cases haj : a = j
        · subst haj
          have : check_is_max_context spans a p = true := (check_iff_best spans p a).mpr hb
          simp [this]
        · have hfalse : ¬ check_is_max_context spans a p = true := by
            intro hch
            have := (check_iff_best spans p a).mp hch
            rw [hb] at this
            exact haj (Option.some_inj.mp this).symm
          simp only [Bool.not_eq_true] at hfalse
          rw [hfalse]
          exact (beq_eq_false_iff_ne.mpr haj).symm
      rw [List.filter_congr hcongr]
      have hnodup : (covering_idx spans p).Nodup :=
        List.Nodup.filter _ (List.nodup_range _)
      rw [← List.countP_eq_length_filter]
      rw [show (fun a => a == j) = (· == j) from rfl]
      rw [← List.count]
      exact List.count_eq_one_of_mem hnodup hje

/-- C6 witness: a singly covered position is owned by its only span, and a
    doubly covered position has exactly one owner. -/
theorem c6_witness :
    check_is_max_context [⟨0, 3⟩] 0 1 = true ∧
    ((covering_idx [⟨0, 3⟩, ⟨2, 3⟩] 2).filter
      (fun i => check_is_max_context [⟨0, 3⟩, ⟨2, 3⟩] i 2)).length = 1 :=
  ⟨(c6_owner_resolution [⟨0, 3⟩] 1).1 0 (by decide),
   (c6_owner_resolution [⟨0, 3⟩, ⟨2, 3⟩] 2).2 (by decide)⟩

/-- C3 counterexample: windows produced with budget 3 and stride 2 over a
    5-token stream both cover position 2 with exactly the same score, so the
    maximum is tied, not strict; _check_is_max_context then returns true for
    the first of the two tied spans, although the claim would make it false
    everywhere in the absence of a strict maximum. -/
theorem best_eval_5_3_2 : best_span_index (doc_spans 5 3 2) 2 = some 0 := by
  have hds : doc_spans 5 3 2 = [⟨0, 3⟩, ⟨2, 3⟩] := by decide
  rw [hds]
  norm_num [best_span_index, best_loop, ctx_score, span_end, min_def]

theorem c3_counterexample :
    doc_spans 5 3 2 = [⟨0, 3⟩, ⟨2, 3⟩] ∧
    Covers ⟨0, 3⟩ 2 ∧ Covers ⟨2, 3⟩ 2 ∧
    ctx_score ⟨0, 3⟩ 2 = ctx_score ⟨2, 3⟩ 2 ∧
    check_is_max_context (doc_spans 5 3 2) 0 2 = true ∧
    check_is_max_context (doc_spans 5 3 2) 1 2 = false := by
  refine ⟨by decide, by decide, by decide, ?_, ?_, ?_⟩
  · norm_num [ctx_score, span_end, min_def]
  · simp [check_is_max_context, best_eval_5_3_2]
  · simp [check_is_max_context, best_eval_5_3_2]

/-- C3 (amended): over the spans produced for an example, the context score
    of a position can be tied between several covering spans;
    _check_is_max_context returns true precisely for the first covering span
    attaining the maximal score. -/
theorem c3_owner_first_max (n W stride p : ℤ) (i : ℕ)
    (hi : i < (doc_spans n W stride).length) :
    check_is_max_context (doc_spans n W stride) i p = true ↔
      (Covers ((doc_spans n W stride).getD i ⟨0, 0⟩) p ∧
       (∀ k, k < (doc_spans n W stride).length →
         Covers ((doc_spans n W stride).getD k ⟨0, 0⟩) p →
         ctx_score ((doc_spans n W stride).getD k ⟨0, 0⟩) p ≤
           ctx_score ((doc_spans n W stride).getD i ⟨0, 0⟩) p) ∧
       (∀ k, k < (doc_spans n W stride).length → k < i →
         Covers ((doc_spans n W stride).getD k ⟨0, 0⟩) p →
         ctx_score ((doc_spans n W stride).getD k ⟨0, 0⟩) p <
           ctx_score ((doc_spans n W stride).getD i ⟨0, 0⟩) p)) := by
  rw [check_iff_best, best_some_iff]
  constructor
  · rintro ⟨-, h2, h3, h4⟩
    exact ⟨h2, h3, h4⟩
  · rintro ⟨h2, h3, h4⟩
    exact ⟨hi, h2, h3, h4⟩

/-- C3 witness: the owner of position 2 among the produced spans covers it. -/
theorem c3_witness : Covers ((doc_spans 5 3 2).getD 0 ⟨0, 0⟩) 2 :=
  ((c3_owner_first_max 5 3 2 2 0 (by decide)).mp
    (by simp [check_is_max_context, best_eval_5_3_2])).1

/-- A failed inner scan means no end position in range matches. -/
theorem search_end_none (dt : List String) (ans : String) (ns : ℕ) :
    ∀ ne0, search_end dt ans ns ne0 = none →
      ∀ j, ns ≤ j → j ≤ ne0 → span_matches dt ans ns j = false := by
  intro ne0
  induction ne0 with
  | zero =>
    intro h j h1 h2
    have hj : j = 0 := by omega
    have hns : ns = 0 := by omega
    subst hj; subst hns
    simp only [search_end] at h
    rw [if_neg (by omega)] at h
    cases hm : span_matches dt ans 0 0
    · rfl
    · simp [hm] at h
  | succ ne ih =>
    intro h j h1 h2
    simp only [search_end] at h
    by_cases hlt : ne + 1 < ns
    · exact absurd h1 (by omega)
    · rw [if_neg hlt] at h
      cases hm : span_matches dt ans ns (ne + 1)
      · simp only [hm, Bool.false_eq_true, if_false] at h
        by_cases hj : j = ne + 1
        · subst hj; exact hm
        · exact ih h j h1 (by omega)
      · simp [hm] at h

/-- A successful inner scan returns the largest matching end position of the
    scanned range (the first one met scanning downward). -/
theorem search_end_some (dt : List String) (ans : String) (ns : ℕ) :
    ∀ ne0 ne, search_end dt ans ns ne0 = some ne →
      ns ≤ ne ∧ ne ≤ ne0 ∧ span_matches dt ans ns ne = true ∧
      ∀ j, ne < j → j ≤ ne0 → span_matches dt ans ns j = false := by
  intro ne0
  induction ne0 with
  | zero =>
    intro ne h
    simp only [search_end] at h
    by_cases hns : 0 < ns
    · rw [if_pos hns] at h; simp at h
    · rw [if_neg hns] at h
      cases hm : span_matches dt ans ns 0
      · simp [hm] at h
      · simp only [hm, if_true] at h
        injection h with h
        subst h
        exact ⟨by omega, le_refl _, hm, fun j hj1 hj2 => absurd hj1 (by omega)⟩
  | succ ne1 ih =>
    intro ne h
    simp only [search_end] at h
    by_cases hlt : ne1 + 1 < ns
    · rw [if_pos hlt] at h; simp at h
    · rw [if_neg hlt] at h
      cases hm : span_matches dt ans ns (ne1 + 1)
      · simp only [hm, Bool.false_eq_true, if_false] at h
        obtain ⟨h1, h2, h3, h4⟩ := ih ne h
        refine ⟨h1, by omega, h3, ?_⟩
        intro j hj1 hj2
        by_cases hj : j = ne1 + 1
        · subst hj; exact hm
        · exact h4 j hj1 (by omega)
      · simp only [hm, if_true] at h
        injection h with h
        subst h
        exact ⟨by omega, le_refl _, hm, fun j hj1 hj2 => absurd hj1 (by omega)⟩

/-- A failed outer scan means the inner scan fails for every visited start. -/
theorem search_start_go_none (dt : List String) (ans : String) (e : ℕ) :
    ∀ m ns, search_start dt ans e m ns = none →
      ∀ i, ns ≤ i → i < ns + m → i ≤ e → search_end dt ans i e = none := by
  intro m
  induction m with
  | zero => intro ns h i h1 h2 h3; exact absurd h2 (by omega)
  | succ m ih =>
    intro ns h i h1 h2 h3
    simp only [search_start] at h
    by_cases hns : ns ≤ e
    · rw [if_pos hns] at h
      cases hse : search_end dt ans ns e with
      | some ne => rw [hse] at h; simp at h
      | none =>
        rw [hse] at h
        by_cases hi : i = ns
        · subst hi; exact hse
        · exact ih (ns + 1) h i (by omega) (by omega) h3
    · rw [if_neg hns] at h
      exact absurd h3 (by omega)

/-- A successful outer scan returns the smallest start whose inner scan
    succeeds, all earlier starts failing. -/
theorem search_start_go_some (dt : List String) (ans : String) (e : ℕ) :
    ∀ m ns a b, search_start dt ans e m ns = some (a, b) →
      ns ≤ a ∧ a ≤ e ∧ search_end dt ans a e = some b ∧
      ∀ i, ns ≤ i → i < a → search_end dt ans i e = none := by
  intro m
  induction m with
  | zero => intro ns a b h; simp [search_start] at h
  | succ m ih =>
    intro ns a b h
    simp only [search_start] at h
    by_cases hns : ns ≤ e
    · rw [if_pos hns] at h
      cases hse : search_end dt ans ns e with
      | some ne =>
        rw [hse] at h
        injection h with h
        injection h with ha hb
        subst ha; subst hb
        exact ⟨le_refl _, hns, hse, fun i hi1 hi2 => absurd hi1 (by omega)⟩
      | none =>
        rw [hse] at h
        obtain ⟨h1, h2, h3, h4⟩ := ih (ns + 1) a b h
        refine ⟨by omega, h2, h3, ?_⟩
        intro i hi1 hi2
        by_cases hi : i = ns
        · subst hi; exact hse
        · exact h4 i (by omega) hi2
    · rw [if_neg hns] at h; simp at h

/-- C7: _improve_answer_span returns the input span unchanged when no
    sub-range of it detokenizes exactly to the tokenized answer text, and
    otherwise returns the first match in the scan order new_start ascending
    and, per start, new_end descending from input_end. -/
theorem c7_improve_answer_span (tokenize : String → List String) (doc_tokens : List String)
    (s e : ℕ) (ans : String) (hse : s ≤ e) :
    ((∀ ns ne, s ≤ ns → ns ≤ ne → ne ≤ e →
        span_matches doc_tokens (join_words (tokenize ans)) ns ne = false) →
      improve_answer_span tokenize doc_tokens s e ans = (s, e)) ∧
    (∀ ns ne, s ≤ ns → ns ≤ ne → ne ≤ e →
        span_matches doc_tokens (join_words (tokenize ans)) ns ne = true →
      (s ≤ (improve_answer_span tokenize doc_tokens s e ans).1 ∧
       (improve_answer_span tokenize doc_tokens s e ans).1 ≤
         (improve_answer_span tokenize doc_tokens s e ans).2 ∧
       (improve_answer_span tokenize doc_tokens s e ans).2 ≤ e ∧
       span_matches doc_tokens (join_words (tokenize ans))
         (improve_answer_span tokenize doc_tokens s e ans).1
         (improve_answer_span tokenize doc_tokens s e ans).2 = true ∧
       ∀ x y, s ≤ x → x ≤ y → y ≤ e →
         span_matches doc_tokens (join_words (tokenize ans)) x y = true →
         ((improve_answer_span tokenize doc_tokens s e ans).1 ≤ x ∧
          (x = (improve_answer_span tokenize doc_tokens s e ans).1 →
            y ≤ (improve_answer_span tokenize doc_tokens s e ans).2)))) := by
  simp only [improve_answer_span]
  cases hss : search_start doc_tokens (join_words (tokenize ans)) e (e + 1 - s) s with
  | none =>
    simp only [hss]
    constructor
    · intro _; trivial
    · intro ns ne h1 h2 h3 hm
      exfalso
      have hnone := search_start_go_none doc_tokens (join_words (tokenize ans)) e
        (e + 1 - s) s hss ns h1 (by omega) (by omega)
      have hf := search_end_none doc_tokens (join_words (tokenize ans)) ns e hnone ne h2 h3
      rw [hm] at hf
      simp at hf
  | some r =>
    obtain ⟨a, b⟩ := r
    simp only [hss]
    obtain ⟨h1, h2, h3, h4⟩ := search_start_go_some doc_tokens (join_words (tokenize ans)) e
      (e + 1 - s) s a b hss
    obtain ⟨hb1, hb2, hb3, hb4⟩ := search_end_some doc_tokens (join_words (tokenize ans)) a e b h3
    constructor
    · intro hnm
      exfalso
      have := hnm a b h1 hb1 hb2
      rw [hb3] at this
      simp at this
    · intro ns ne hns hne1 hne2 hm
      refine ⟨h1, hb1, hb2, hb3, ?_⟩
      intro x y hx hxy hy hmxy
      constructor
      · by_contra hlt
        push_neg at hlt
        have hn := h4 x hx hlt
        have hf := search_end_none doc_tokens (join_words (tokenize ans)) x e hn y hxy hy
        rw [hmxy] at hf
        simp at hf
      · intro hxa
        by_contra hyb
        push_neg at hyb
        have hf := hb4 y hyb hy
        rw [hxa] at hmxy
        rw [hmxy] at hf
        simp at hf

/-- C7 witness: the span improvement on the sample from the source comments
    finds the exact subword match for the answer 1895 and the found span
    matches the tokenized answer. -/
theorem c7_witness :
    span_matches ["(", "1895", "-", "1943", ")", "."] (join_words (tk_id "1895"))
      (improve_answer_span tk_id ["(", "1895", "-", "1943", ")", "."] 0 5 "1895").1
      (improve_answer_span tk_id ["(", "1895", "-", "1943", ")", "."] 0 5 "1895").2 = true :=
  ((c7_improve_answer_span tk_id ["(", "1895", "-", "1943", ")", "."] 0 5 "1895"
      (by decide)).2 1 1 (by decide) (by decide) (by decide) (by decide)).2.2.2.1

/-- C8: a (start, end) pair drawn from the two top-n index lists becomes a
    candidate prediction if and only if both indices are inside the token
    list, both are mapped to original words, the start is a max-context
    position, end is not before start, and the span length does not exceed
    max_answer_length. -/
theorem c8_candidate_filter (fi : ℕ) (feature : InputFeatures) (result : RawResult)
    (n_best_size max_answer_length s e : ℕ) :
    (∃ p ∈ prelim_predictions_for_feature fi feature result n_best_size max_answer_length,
       p.start_index = s ∧ p.end_index = e) ↔
    (s ∈ get_best_indexes result.start_logits n_best_size ∧
     e ∈ get_best_indexes result.end_logits n_best_size ∧
     s < feature.tokens.length ∧ e < feature.tokens.length ∧
     (feature.token_to_orig_map s).isSome = true ∧
     (feature.token_to_orig_map e).isSome = true ∧
     (feature.token_is_max_context s).getD false = true ∧
     s ≤ e ∧ e - s + 1 ≤ max_answer_length) := by
  unfold prelim_predictions_for_feature
  constructor
  · rintro ⟨p, hp, hs, he⟩
    simp only [List.mem_flatMap, List.mem_map, List.mem_filter] at hp
    obtain ⟨s0, hs0, e0, ⟨he0, hsurv⟩, rfl⟩ := hp
    dsimp only at hs he
    subst hs; subst he
    simp only [prelim_survives, Bool.and_eq_true, decide_eq_true_eq] at hsurv
    exact ⟨hs0, he0, hsurv.1.1.1.1.1.1, hsurv.1.1.1.1.1.2, hsurv.1.1.1.1.2,
      hsurv.1.1.1.2, hsurv.1.1.2, hsurv.1.2, hsurv.2⟩
  · rintro ⟨h1, h2, h3, h4, h5, h6, h7, h8, h9⟩
    refine ⟨⟨fi, s, e, result.start_logits.getD s 0, result.end_logits.getD e 0⟩, ?_, rfl, rfl⟩
    simp only [List.mem_flatMap, List.mem_map, List.mem_filter]
    refine ⟨s, h1, e, ⟨h2, ?_⟩, rfl⟩
    simp only [prelim_survives, Bool.and_eq_true, decide_eq_true_eq]
    exact ⟨⟨⟨⟨⟨⟨h3, h4⟩, h5⟩, h6⟩, h7⟩, h8⟩, h9⟩

/-- C1 evaluation at the failing input: document words ab and cd each split
    into two subwords, gold word span is word 1 (cd), so the projected subword
    span is positions 2 to 3. For the first window, whose slice is subword
    positions 0 to 1, both projected endpoints fall outside the slice; the
    claim (and the spec) then require gold start = end = 0, but the code tests
    the word-level positions 1, 1 against the slice bounds, finds them inside,
    and emits gold positions (5, 6) - past the document slice of the window
    (positions 3 to 4 for query length 1), landing on the trailing separator
    and beyond. -/
theorem c1_out_of_span_uses_word_positions :
    (build_tok_maps tk_ex ["ab", "cd"]).2.2 = ["a", "##b", "c", "##d"] ∧
    (build_tok_maps tk_ex ["ab", "cd"]).2.1 = [0, 2] ∧
    tok_positions tk_ex ["ab", "cd"] 1 1 "cd" = (2, 3) ∧
    doc_spans 4 2 1 = [⟨0, 2⟩, ⟨1, 2⟩, ⟨2, 2⟩] ∧
    ¬ ((2 : ℤ) ≤ span_end ⟨0, 2⟩) ∧
    span_positions 1 1 1 2 3 ⟨0, 2⟩ false = (5, 6) ∧
    span_positions 1 1 1 2 3 ⟨0, 2⟩ false ≠ (0, 0) := by decide

/-- C4 counterexample: a training record whose paragraph is x yy and whose
    single answer record carries text yy with answer_start 2 and answer_end 3.
    The loader returns start position 2, the raw answer_start field, whereas
    the conversion claimed by C4 would map character offset 2 through
    char_to_word_offset and produce word index 1. -/
theorem c4_counterexample :
    read_example_positions false [⟨"yy", 2, 3⟩] = Except.ok (2, 3, "yy") ∧
    (split_doc "x yy").1 = ["x", "yy"] ∧
    (split_doc "x yy").2 = [0, 0, 1, 1] ∧
    spec_word_start "x yy" 2 = 1 ∧
    (2 : ℤ) ≠ 1 := by
  refine ⟨rfl, by decide, by decide, by decide, by decide⟩

/-- Each processed character contributes exactly one char_to_word_offset
    entry. -/
theorem split_doc_go_offs_length :
    ∀ (cs : List Char) (b : Bool) (toks : List String) (offs : List ℤ),
      (split_doc_go cs b toks offs).2.length = offs.length + cs.length := by
  intro cs
  induction cs with
  | nil => intro b toks offs; simp [split_doc_go]
  | cons c cs ih =>
    intro b toks offs
    simp only [split_doc_go]
    by_cases hw : is_whitespace_char c = true
    · rw [if_pos hw, ih]
      simp only [List.length_cons]
      omega
    · rw [if_neg hw, ih]
      simp only [List.length_cons]
      omega

/-- C4 (amended): the loader builds the char_to_word_offset map with one entry
    per paragraph character during whitespace segmentation, but for an
    answerable training question it returns the answer record fields answer_start
    and answer_end fields directly as the word-level gold positions, applying
    no conversion through the map. -/
theorem c4_loader_positions (a : SquadAnswer) (text : String) :
    read_example_positions false [a] = Except.ok (a.answer_start, a.answer_end, a.text) ∧
    (split_doc text).2.length = text.length := by
  constructor
  · unfold read_example_positions
    rw [if_neg (by simp), if_pos (by simp)]
  · rw [split_doc, split_doc_go_offs_length]
    simp only [List.length_nil, Nat.zero_add]
    rfl

/-- Behaviour of per-example aggregation when no candidate survives the
    filter: in plain mode the placeholder entry named empty is substituted and
    becomes the best answer; in version-2 mode the n-best list still gets
    exactly one entry (the injected null hypothesis) but the final-answer step
    finds no non-null entry and fails. -/
theorem wpe_empty_prelim (gft : String → String → String) (features : List InputFeatures)
    (results : List RawResult) (doc_tokens : List String)
    (n_best_size max_answer_length : ℕ) (threshold : ℚ)
    (hne : prelim_all features results n_best_size max_answer_length = []) :
    write_predictions_for_example gft features results doc_tokens n_best_size
      max_answer_length false threshold = ⟨[⟨"empty", 0, 0⟩], some "empty", none⟩ ∧
    ((write_predictions_for_example gft features results doc_tokens n_best_size
        max_answer_length true threshold).nbest.length = 1 ∧
     (write_predictions_for_example gft features results doc_tokens n_best_size
        max_answer_length true threshold).answer = none) := by
  have hie : ("" : String).isEmpty = true := by decide
  constructor
  · simp [write_predictions_for_example, hne, sorted_desc, nbest_loop]
  · rcases Nat.eq_zero_or_pos n_best_size with hnb | hnb
    · subst hnb
      simp [write_predictions_for_example, hne, sorted_desc, insert_desc, nbest_loop,
        List.find?, hie]
    · have h0 : ¬ (n_best_size ≤ 0) := by omega
      simp [write_predictions_for_example, hne, sorted_desc, insert_desc, nbest_loop,
        List.find?, hie, h0]

/-- C2 (amended): for an example whose filtered candidate set is empty, plain
    mode substitutes the placeholder entry and still yields a best answer and
    an n-best list of length 1; version-2 mode also yields an n-best list of
    length 1 (the null hypothesis), but the best-answer computation fails on
    the missing best non-null entry instead of producing an answer. -/
theorem c2_no_survivor_behaviour (gft : String → String → String)
    (features : List InputFeatures) (results : List RawResult) (doc_tokens : List String)
    (n_best_size max_answer_length : ℕ) (threshold : ℚ)
    (hne : prelim_all features results n_best_size max_answer_length = []) :
    write_predictions_for_example gft features results doc_tokens n_best_size
      max_answer_length false threshold = ⟨[⟨"empty", 0, 0⟩], some "empty", none⟩ ∧
    ((write_predictions_for_example gft features results doc_tokens n_best_size
        max_answer_length true threshold).nbest.length = 1 ∧
     (write_predictions_for_example gft features results doc_tokens n_best_size
        max_answer_length true threshold).answer = none) :=
  wpe_empty_prelim gft features results doc_tokens n_best_size max_answer_length threshold hne

/-- C2 witness: a feature whose token map is empty filters out every pair;
    in plain mode the example still receives the placeholder best answer. -/
theorem c2_witness :
    write_predictions_for_example (fun t _ => t)
      [⟨7, ["[CLS]", "q", "[SEP]"], fun _ => none, fun _ => none⟩]
      [⟨7, [1, 2, 3], [1, 2, 3]⟩] ["doc"] 20 30 false 0 =
      ⟨[⟨"empty", 0, 0⟩], some "empty", none⟩ :=
  (c2_no_survivor_behaviour (fun t _ => t)
    [⟨7, ["[CLS]", "q", "[SEP]"], fun _ => none, fun _ => none⟩]
    [⟨7, [1, 2, 3], [1, 2, 3]⟩] ["doc"] 20 30 0 (by decide)).1

/-- C2 counterexample: the same empty-filter example in version-2 mode. The
    n-best list is non-empty, but no best-answer entry is produced: the
    aggregation aborts on the missing non-null entry, refuting the claim that
    version-2 mode also always yields a best answer. -/
theorem c2_counterexample :
    prelim_all [⟨7, ["[CLS]", "q", "[SEP]"], fun _ => none, fun _ => none⟩]
      [⟨7, [1, 2, 3], [1, 2, 3]⟩] 20 30 = [] ∧
    (write_predictions_for_example (fun t _ => t)
      [⟨7, ["[CLS]", "q", "[SEP]"], fun _ => none, fun _ => none⟩]
      [⟨7, [1, 2, 3], [1, 2, 3]⟩] ["doc"] 20 30 true 0).answer = none ∧
    1 ≤ (write_predictions_for_example (fun t _ => t)
      [⟨7, ["[CLS]", "q", "[SEP]"], fun _ => none, fun _ => none⟩]
      [⟨7, [1, 2, 3], [1, 2, 3]⟩] ["doc"] 20 30 true 0).nbest.length := by
  have h := wpe_empty_prelim (fun t _ => t)
    [⟨7, ["[CLS]", "q", "[SEP]"], fun _ => none, fun _ => none⟩]
    [⟨7, [1, 2, 3], [1, 2, 3]⟩] ["doc"] 20 30 0 (by decide)
  exact ⟨by decide, h.2.2, le_of_eq h.2.1.symm⟩
